import Mathlib

/-!
Verification of the session layer in pyramid_sockjs/session.py.

Modelling conventions (shallow embedding):
* Timestamps and durations are natural numbers; every operation that reads
  the wall clock in the source receives the current time as an explicit
  argument named now.
* Session ids are natural numbers; the manager's sessions dict is an
  association list from id to Session, its acquired dict is a list of ids,
  and its pool is a list of (stored expiry, session id) pairs.  In Python
  the pool stores object references; in every state reachable through the
  manager API the binding sessions[s.id] = s holds, so looking the session
  up by id is the faithful rendering.
* The gevent queue attached to a session is its list of frames; the opaque
  frame codec encode is passed in as a function argument.
* Application callbacks (on_open, on_message, on_close) are represented by
  their outcome, a value of type Except Unit Unit: ok means the callback
  returned, error means it raised.
* Python exceptions escaping a method are rendered with Option/Except or
  an explicit raised flag; loops whose termination is in question take a
  fuel argument, with none denoting an unfinished computation.
-/

namespace PyramidSockjs

/-- Encoded frames sitting in a session's outbound queue. -/
abbrev Frame := List Nat

/-- State of one Session object from session.py. -/
structure Session where
  id : Nat
  expired : Bool
  timeout : Nat
  expires : Nat
  queue : List Frame
  hits : Nat
  heartbeats : Nat
  connected : Bool
deriving DecidableEq, Repr

/-- Embeds Session.__init__(id, timeout): expired False, expires now + timeout,
empty queue, zero counters, disconnected. -/
def Session.init (id timeout now : Nat) : Session :=
  { id := id, expired := false, timeout := timeout, expires := now + timeout,
    queue := [], hits := 0, heartbeats := 0, connected := false }

/-- Embeds Session.tick(timeout=None): clears the expired flag and sets
expires to now plus the given timeout, defaulting to the session's own. -/
def Session.tick (s : Session) (now : Nat) (timeout : Option Nat) : Session :=
  { s with expired := false,
           expires := match timeout with
                      | none => now + s.timeout
                      | some t => now + t }

/-- Embeds Session.heartbeat(): increments the heartbeat counter only. -/
def Session.heartbeat (s : Session) : Session :=
  { s with heartbeats := s.heartbeats + 1 }

/-- Embeds Session.expire(): sets expired, clears connected, no callback. -/
def Session.expire (s : Session) : Session :=
  { s with expired := true, connected := false }

/-- Embeds the isinstance normalization at the top of Session.send: a lone
text message becomes a one-element list, a list is passed through. -/
def normalizeMsg : Nat ⊕ List Nat → List Nat
  | .inl t => [t]
  | .inr l => l

/-- Embeds Session.send(msg): normalize, tick with the default timeout, then
put the encoded frame on the queue (put_nowait on an unbounded queue never
blocks or raises). -/
def Session.send (s : Session) (enc : List Nat → Frame) (now : Nat)
    (msg : Nat ⊕ List Nat) : Session :=
  let s' := s.tick now none
  { s' with queue := s'.queue ++ [enc (normalizeMsg msg)] }

/-- Embeds Session.get_transport_message(timeout): tick first, then
queue.get.  The queue is the external gevent queue; modelled from the spec:
a get on a non-empty queue removes and returns the head frame, and a get on
an empty queue whose timeout elapses yields the empty-result indicator
(none) rather than a frame. -/
def Session.get_transport_message (s : Session) (now : Nat)
    (timeout : Option Nat) : Session × Option Frame :=
  let s' := s.tick now none
  match s'.queue with
  | [] => (s', none)
  | f :: rest => ({ s' with queue := rest }, some f)

/-- Embeds Session.open(): set connected, then run on_open inside
try/except; a raising callback is logged and swallowed. -/
def Session.open' (s : Session) (on_open : Except Unit Unit) : Session :=
  let s' := { s with connected := true }
  match on_open with
  | .ok _ => s'
  | .error _ => s'

/-- Embeds Session.message(msg): tick, then run on_message inside
try/except; a raising callback is logged and swallowed. -/
def Session.message (s : Session) (now : Nat)
    (on_message : Except Unit Unit) : Session :=
  let s' := s.tick now none
  match on_message with
  | .ok _ => s'
  | .error _ => s'

/-- Embeds Session.close(): expire, then run on_close inside try/except;
a raising callback is logged and swallowed. -/
def Session.close (s : Session) (on_close : Except Unit Unit) : Session :=
  let s' := s.expire
  match on_close with
  | .ok _ => s'
  | .error _ => s'

/-- Pool entries: stored expiry paired with the session id. -/
abbrev PoolEntry := Nat × Nat

/-- Comparison used by the heap routines on pool entries.  Python compares
the (expires, session) tuples; the session objects carry no ordering, so
entries are compared by their stored expiry (the spec notes the tie-break
is left unspecified; equal keys are treated as not-less). -/
def entryLt (a b : PoolEntry) : Bool := a.1 < b.1

/-- Embeds heapq._siftdown(heap, startpos, pos) from the Python standard
library, with newitem the value being placed: walk from pos toward
startpos, moving parents down while newitem is smaller, then store newitem.
The first argument is fuel; the caller passes pos, which bounds the number
of iterations, and on exhaustion the loop-exit action is performed. -/
def siftdownAux : Nat → List PoolEntry → Nat → Nat → PoolEntry → List PoolEntry
  | 0, heap, _, pos, newitem => heap.set pos newitem
  | fuel + 1, heap, startpos, pos, newitem =>
    if startpos < pos then
      if entryLt newitem (heap.getD ((pos - 1) / 2) (0, 0)) then
        siftdownAux fuel (heap.set pos (heap.getD ((pos - 1) / 2) (0, 0)))
          startpos ((pos - 1) / 2) newitem
      else heap.set pos newitem
    else heap.set pos newitem

/-- Embeds the child selection inside heapq._siftup: the right child is
taken when it exists and the left child is not smaller. -/
def pickChild (heap : List PoolEntry) (pos : Nat) : Nat :=
  if 2 * pos + 2 < heap.length &&
      !(entryLt (heap.getD (2 * pos + 1) (0, 0)) (heap.getD (2 * pos + 2) (0, 0))) then
    2 * pos + 2
  else 2 * pos + 1

/-- Embeds heapq._siftup(heap, pos) with startpos fixed to 0 as in heappop:
walk the item down along the smaller-child path to a leaf, then sift the
saved newitem back down toward the root.  Fueled; heap length bounds the
number of iterations. -/
def siftupAux : Nat → List PoolEntry → Nat → PoolEntry → List PoolEntry
  | 0, heap, pos, newitem => siftdownAux pos (heap.set pos newitem) 0 pos newitem
  | fuel + 1, heap, pos, newitem =>
    if 2 * pos + 1 < heap.length then
      siftupAux fuel (heap.set pos (heap.getD (pickChild heap pos) (0, 0)))
        (pickChild heap pos) newitem
    else siftdownAux pos (heap.set pos newitem) 0 pos newitem

/-- Embeds heapq.heappush(heap, item): append, then sift down from the last
position toward the root. -/
def heappush (heap : List PoolEntry) (item : PoolEntry) : List PoolEntry :=
  siftdownAux heap.length (heap ++ [item]) 0 heap.length item

/-- Embeds heapq.heappop(heap): remove the last element; if the heap is
still non-empty, the head is returned and the last element is sifted from
the root.  Popping an empty list raises IndexError, rendered as none. -/
def heappop (heap : List PoolEntry) : Option (PoolEntry × List PoolEntry) :=
  match heap.getLast? with
  | none => none
  | some lastelt =>
    let rest := heap.dropLast
    if rest.isEmpty then some (lastelt, [])
    else some (rest.getD 0 (0, 0), siftupAux rest.length (rest.set 0 lastelt) 0 lastelt)

/-- Embeds a Python dict lookup d.get(k) on the sessions dict. -/
def mlookup : List (Nat × Session) → Nat → Option Session
  | [], _ => none
  | p :: rest, k => if p.1 = k then some p.2 else mlookup rest k

/-- Embeds del d[k] on the sessions dict (all bindings of k removed; the
dict never holds a key twice). -/
def eraseKey : List (Nat × Session) → Nat → List (Nat × Session)
  | [], _ => []
  | p :: rest, k => if p.1 = k then eraseKey rest k else p :: eraseKey rest k

/-- Embeds del d[k] on the acquired dict of ids. -/
def eraseId : List Nat → Nat → List Nat
  | [], _ => []
  | a :: rest, k => if a = k then eraseId rest k else a :: eraseId rest k

/-- Embeds d[k] = v on the sessions dict: replace the binding if the key is
present, append it otherwise. -/
def setKey : List (Nat × Session) → Nat → Session → List (Nat × Session)
  | [], k, v => [(k, v)]
  | p :: rest, k, v => if p.1 = k then (k, v) :: rest else p :: setKey rest k v

/-- Embeds d[k] = True on the acquired dict of ids. -/
def insertId (l : List Nat) (k : Nat) : List Nat :=
  if k ∈ l then l else l ++ [k]

/-- State of a SessionManager from session.py: the sessions dict, the
acquired dict, the expiry pool, and the configured default timeout. -/
structure SessionManager where
  sessions : List (Nat × Session)
  acquired : List Nat
  pool : List PoolEntry
  timeout : Nat
deriving DecidableEq, Repr

/-- Errors acquire can surface: KeyError from a failed lookup, ValueError
from _add on an expired session. -/
inductive AcquireError where
  | notFound
  | invalidState
deriving DecidableEq, Repr

/-- Embeds the while loop of SessionManager._gc, one constructor step per
iteration, with the current time captured once before the loop.  The head
of the pool is peeked; a stale entry whose id left the sessions dict is
dropped with pool.pop(0); a head whose stored expiry is in the future
breaks the loop; otherwise the head is popped with pool.pop(0) (the source
uses the plain list pop, not heappop) and the session's live expires
decides between eviction (del from sessions and acquired, close if
connected) and re-pushing a fresh entry with heappush.  The fuel argument
counts remaining iterations; none means the loop was still running when
the fuel ran out. -/
def gcLoop (now : Nat) : Nat → SessionManager → Option SessionManager
  | 0, _ => none
  | fuel + 1, m =>
    match m.pool with
    | [] => some m
    | (expires, sid) :: rest =>
      match mlookup m.sessions sid with
      | some s =>
        if now < expires then some m
        else if s.expires < now then
          gcLoop now fuel
            { m with sessions := eraseKey m.sessions s.id,
                     acquired := eraseId m.acquired s.id,
                     pool := rest }
        else
          gcLoop now fuel { m with pool := heappush rest (s.expires, sid) }
      | none => gcLoop now fuel { m with pool := rest }

/-- Embeds SessionManager._add(session): reject an expired session with
ValueError, otherwise store it in the sessions dict and push its
(expires, session) entry onto the pool. -/
def SessionManager.add (m : SessionManager) (s : Session) :
    Except AcquireError SessionManager :=
  if s.expired then .error .invalidState
  else .ok { m with sessions := setKey m.sessions s.id s,
                    pool := heappush m.pool (s.expires, s.id) }

/-- Embeds SessionManager.acquire(id, create): a missing id raises KeyError
when create is false and otherwise builds a fresh session through the
factory and _add; in all success paths the session is ticked, its hits
incremented, and its id marked in acquired.  The manager state is returned
alongside the result; on an error it is the untouched input state. -/
def SessionManager.acquire (m : SessionManager) (id : Nat) (create : Bool)
    (now : Nat) : Except AcquireError Session × SessionManager :=
  match mlookup m.sessions id with
  | some s =>
    let s' := { s.tick now none with hits := s.hits + 1 }
    (.ok s', { m with sessions := setKey m.sessions id s',
                      acquired := insertId m.acquired s'.id })
  | none =>
    if create then
      let s := Session.init id m.timeout now
      match m.add s with
      | .error e => (.error e, m)
      | .ok m1 =>
        let s' := { s.tick now none with hits := s.hits + 1 }
        (.ok s', { m1 with sessions := setKey m1.sessions id s',
                           acquired := insertId m1.acquired s'.id })
    else (.error .notFound, m)

/-- Embeds SessionManager.release(session): drop the id from acquired. -/
def SessionManager.release (m : SessionManager) (s : Session) : SessionManager :=
  { m with acquired := eraseId m.acquired s.id }

/-- Embeds the while loop of SessionManager.clear(): heappop the pool,
expire the popped session, delete it from the sessions dict, until the
pool is empty.  A popped id absent from the sessions dict makes the del
raise KeyError, rendered as none.  The expired session objects are
collected so their final state stays observable; fuel counts iterations. -/
def clearAux : Nat → List PoolEntry → List (Nat × Session) →
    Option (List (Nat × Session) × List Session)
  | _, [], sessions => some (sessions, [])
  | 0, _ :: _, _ => none
  | fuel + 1, p :: rest, sessions =>
    match heappop (p :: rest) with
    | none => none
    | some ((_, sid), pool') =>
      match mlookup sessions sid with
      | none => none
      | some s =>
        match clearAux fuel pool' (eraseKey sessions sid) with
        | none => none
        | some (sessions', ex) => some (sessions', Session.expire s :: ex)

/-- Embeds SessionManager.clear(): run the pop-expire-delete loop to
exhaustion of the pool.  The initial pool length bounds the number of
iterations because each heappop shortens the pool by one. -/
def SessionManager.clear (m : SessionManager) :
    Option (SessionManager × List Session) :=
  match clearAux m.pool.length m.pool m.sessions with
  | none => none
  | some (sessions', ex) => some ({ m with sessions := sessions', pool := [] }, ex)

/-- Embeds the for loop of SessionManager.broadcast over sessions.values():
skip a session whose expired flag is set, otherwise run its send method.
The send is the session's own, overridable through the manager's session
factory, so it is passed in as a function returning none when it raises;
an exception aborts the loop, leaving the earlier mutations in place, and
the Boolean records whether the pass raised. -/
def broadcastWith (sendF : Session → Option Session) :
    List (Nat × Session) → List (Nat × Session) × Bool
  | [] => ([], false)
  | (k, s) :: rest =>
    if s.expired then
      let r := broadcastWith sendF rest
      ((k, s) :: r.1, r.2)
    else
      match sendF s with
      | some s' =>
        let r := broadcastWith sendF rest
        ((k, s') :: r.1, r.2)
      | none => ((k, s) :: rest, true)

/-- Embeds SessionManager.broadcast(msg) with the stock Session.send, whose
model is total: every non-expired session is sent the encoded message. -/
def SessionManager.broadcast (m : SessionManager) (enc : List Nat → Frame)
    (now : Nat) (msg : Nat ⊕ List Nat) : SessionManager × Bool :=
  let r := broadcastWith (fun s => some (s.send enc now msg)) m.sessions
  ({ m with sessions := r.1 }, r.2)

/-! Helper lemmas about the dict embeddings. -/

theorem mlookup_mem {l : List (Nat × Session)} {k : Nat} {s : Session}
    (h : mlookup l k = some s) : (k, s) ∈ l := by
  induction l with
  | nil => simp [mlookup] at h
  | cons p rest ih =>
    obtain ⟨a, b⟩ := p
    by_cases hk : a = k
    · subst hk
      simp [mlookup] at h
      simp [h]
    · simp [mlookup, hk] at h
      exact List.mem_cons_of_mem _ (ih h)

theorem mlookup_isSome_of_mem_keys {l : List (Nat × Session)} {k : Nat}
    (h : k ∈ l.map Prod.fst) : ∃ s, mlookup l k = some s := by
  induction l with
  | nil => simp at h
  | cons p rest ih =>
    by_cases hk : p.1 = k
    · exact ⟨p.2, by simp [mlookup, hk]⟩
    · have h' : k ∈ rest.map Prod.fst := by
        rcases List.mem_map.1 h with ⟨q, hq, hq2⟩
        rcases List.mem_cons.1 hq with heq | hq3
        · exact absurd (heq ▸ hq2) hk
        · exact List.mem_map.2 ⟨q, hq3, hq2⟩
      obtain ⟨s, hs⟩ := ih h'
      exact ⟨s, by simp [mlookup, hk, hs]⟩

theorem mlookup_eq_of_mem_nodup {l : List (Nat × Session)} {k : Nat} {v : Session}
    (hnd : (l.map Prod.fst).Nodup) (h : (k, v) ∈ l) : mlookup l k = some v := by
  induction l with
  | nil => simp at h
  | cons p rest ih =>
    rcases List.mem_cons.1 h with heq | hmem
    · subst heq
      simp [mlookup]
    · have hk : p.1 ≠ k := by
        intro hc
        have : k ∈ rest.map Prod.fst := List.mem_map.2 ⟨(k, v), hmem, rfl⟩
        rw [List.map_cons] at hnd
        exact (List.nodup_cons.1 hnd).1 (hc ▸ this)
      have hnd' : (rest.map Prod.fst).Nodup := by
        rw [List.map_cons] at hnd
        exact (List.nodup_cons.1 hnd).2
      simp [mlookup, hk, ih hnd' hmem]

theorem mem_of_mem_eraseKey {l : List (Nat × Session)} {k : Nat} {p : Nat × Session}
    (h : p ∈ eraseKey l k) : p ∈ l := by
  induction l with
  | nil => simp [eraseKey] at h
  | cons q rest ih =>
    by_cases hk : q.1 = k
    · simp [eraseKey, hk] at h
      exact List.mem_cons_of_mem _ (ih h)
    · simp [eraseKey, hk] at h
      rcases h with h | h
      · simp [h]
      · exact List.mem_cons_of_mem _ (ih h)

theorem mem_eraseKey_of_ne {l : List (Nat × Session)} {k : Nat} {p : Nat × Session}
    (h : p ∈ l) (hne : p.1 ≠ k) : p ∈ eraseKey l k := by
  induction l with
  | nil => simp at h
  | cons q rest ih =>
    rcases List.mem_cons.1 h with heq | hmem
    · subst heq
      simp [eraseKey, hne]
    · by_cases hk : q.1 = k
      · simp [eraseKey, hk]
        exact ih hmem
      · simp [eraseKey, hk]
        exact .inr (ih hmem)

theorem mlookup_eraseKey_self (l : List (Nat × Session)) (k : Nat) :
    mlookup (eraseKey l k) k = none := by
  induction l with
  | nil => rfl
  | cons p rest ih =>
    by_cases hk : p.1 = k
    · simp [eraseKey, hk, ih]
    · simp [eraseKey, mlookup, hk, ih]

theorem mlookup_eraseKey_ne {j k : Nat} (l : List (Nat × Session)) (h : j ≠ k) :
    mlookup (eraseKey l k) j = mlookup l j := by
  induction l with
  | nil => rfl
  | cons p rest ih =>
    by_cases hk : p.1 = k
    · have hj : ¬(k = j) := fun hc => h hc.symm
      simp [eraseKey, hk, mlookup, hj, ih]
    · simp [eraseKey, mlookup, hk, ih]

theorem mlookup_setKey_self (l : List (Nat × Session)) (k : Nat) (v : Session) :
    mlookup (setKey l k v) k = some v := by
  induction l with
  | nil => simp [setKey, mlookup]
  | cons p rest ih =>
    by_cases hk : p.1 = k
    · simp [setKey, hk, mlookup]
    · simp [setKey, hk, mlookup, ih]

theorem keys_setKey {l : List (Nat × Session)} {k : Nat} (v : Session)
    (h : (mlookup l k).isSome) :
    (setKey l k v).map Prod.fst = l.map Prod.fst := by
  induction l with
  | nil => simp [mlookup] at h
  | cons p rest ih =>
    by_cases hk : p.1 = k
    · simp [setKey, hk]
    · simp [mlookup, hk] at h
      simp [setKey, hk, ih h]

theorem mem_insertId (l : List Nat) (k : Nat) : k ∈ insertId l k := by
  unfold insertId
  by_cases h : k ∈ l <;> simp [h]

/-! Concrete objects used by witnesses and counterexamples. -/

/-- Plain disconnected session with an empty queue and zero counters. -/
def plainSession (id timeout expires : Nat) : Session :=
  { id := id, expired := false, timeout := timeout, expires := expires,
    queue := [], hits := 0, heartbeats := 0, connected := false }

/-- Identity stand-in for the opaque frame codec, used at concrete inputs. -/
def encId : List Nat → Frame := fun l => l

/-- Manager with no sessions and the default ten-unit timeout. -/
def managerEmpty : SessionManager :=
  { sessions := [], acquired := [], pool := [], timeout := 10 }

/-- Claim C4 counterexample input: a session whose deadline sits at 10. -/
def sessionC4 : Session := plainSession 1 10 10

/-- Claim C4, counterexample: ticking with an explicit timeout of 0 at time 2
moves the deadline from 10 back to 2, so expires is not monotone under
arbitrary tick arguments as the claim states. -/
theorem tick_monotonicity_counterexample :
    (sessionC4.tick 2 (some 0)).expires < sessionC4.expires := by decide

/-- Claim C4 (amended): every tick clears the expired flag, and tick sets
expires to now plus the argument timeout (or the session's own timeout when
none is given); the deadline is monotone for default-timeout ticks whose
current time is no earlier than the time of the previous refresh, while an
explicit smaller timeout may move it backward. -/
theorem tick_amended (s : Session) (now t t0 : Nat) :
    (s.tick now (some t)).expired = false ∧
    (s.tick now none).expired = false ∧
    (s.tick now (some t)).expires = now + t ∧
    (s.tick now none).expires = now + s.timeout ∧
    (s.expires = t0 + s.timeout → t0 ≤ now → s.expires ≤ (s.tick now none).expires) := by
  refine ⟨rfl, rfl, rfl, rfl, fun h1 h2 => ?_⟩
  simp only [Session.tick]
  omega

/-- Claim C4, witness: the amended monotonicity applied to a session whose
deadline was set at time 0 and is ticked at time 5. -/
theorem tick_amended_witness :
    sessionC4.expires ≤ (sessionC4.tick 5 none).expires :=
  (tick_amended sessionC4 5 0 0).2.2.2.2 (by decide) (by decide)

/-- Claim C5: get_transport_message ticks the session on every call, and on
an empty queue with a timeout it returns the ticked session together with
the empty-result indicator instead of an error. -/
theorem get_transport_message_spec (s : Session) (now t : Nat) (tmo : Option Nat) :
    ((s.get_transport_message now tmo).1.expires = now + s.timeout ∧
     (s.get_transport_message now tmo).1.expired = false) ∧
    (s.queue = [] → s.get_transport_message now (some t) = (s.tick now none, none)) := by
  constructor
  · unfold Session.get_transport_message
    cases h : s.queue <;> simp [Session.tick, h]
  · intro hq
    unfold Session.get_transport_message
    have : (s.tick now none).queue = [] := by simp [Session.tick, hq]
    simp [this]

/-- Claim C5, witness: an empty poll with timeout 3 at time 7. -/
theorem get_transport_message_witness :
    sessionC4.get_transport_message 7 (some 3) = (sessionC4.tick 7 none, none) :=
  (get_transport_message_spec sessionC4 7 3 (some 3)).2 rfl

/-- Claim C9: exceptions from on_open, on_message and on_close are swallowed
inside the corresponding method: whatever the callback outcome, open
returns with connected set, message returns with the deadline ticked, and
close returns with expired set and connected cleared. -/
theorem callback_exceptions_contained (s : Session) (now : Nat)
    (cb1 cb2 cb3 : Except Unit Unit) :
    s.open' cb1 = { s with connected := true } ∧
    s.message now cb2 = s.tick now none ∧
    s.close cb3 = { s with expired := true, connected := false } :=
  ⟨by cases cb1 <;> rfl, by cases cb2 <;> rfl, by cases cb3 <;> rfl⟩

/-- Claim C7: acquiring an absent id with create false surfaces the KeyError
and hands back the manager state untouched. -/
theorem acquire_absent_notFound (m : SessionManager) (id now : Nat)
    (h : mlookup m.sessions id = none) :
    m.acquire id false now = (.error .notFound, m) := by
  unfold SessionManager.acquire
  simp [h]

/-- Claim C7, witness: the empty manager at id 4. -/
theorem acquire_absent_notFound_witness :
    managerEmpty.acquire 4 false 5 = (.error .notFound, managerEmpty) :=
  acquire_absent_notFound managerEmpty 4 5 rfl

/-- Non-expired session used in the broadcast counterexample. -/
def sessionA : Session := plainSession 1 10 50

/-- Second non-expired session used in the broadcast counterexample. -/
def sessionB : Session := plainSession 2 10 50

/-- Send path that raises on session 1 and succeeds on every other session,
standing for a factory-overridden send method. -/
def failingSend : Session → Option Session :=
  fun s => if s.id = 1 then none else some (s.send encId 0 (Sum.inl 7))

/-- Claim C6, counterexample: broadcast over two non-expired sessions whose
first send raises.  The pass aborts with the exception (flag true) and the
second session's queue stays empty even though its own send path works, so
the pass does not continue past a failure as the claim states. -/
theorem broadcast_not_best_effort_counterexample :
    broadcastWith failingSend [(1, sessionA), (2, sessionB)]
        = ([(1, sessionA), (2, sessionB)], true) ∧
    sessionB.expired = false ∧
    failingSend sessionB = some (sessionB.send encId 0 (Sum.inl 7)) ∧
    sessionB.queue = [] :=
  ⟨rfl, rfl, rfl, rfl⟩

/-- Effect of a successful send during broadcast on one dict entry: expired
sessions are skipped, live ones get the message appended by send. -/
def sendToLive (enc : List Nat → Frame) (now : Nat) (msg : Nat ⊕ List Nat)
    (p : Nat × Session) : Nat × Session :=
  if p.2.expired then p else (p.1, p.2.send enc now msg)

theorem broadcastWith_send (enc : List Nat → Frame) (now : Nat)
    (msg : Nat ⊕ List Nat) :
    ∀ ss : List (Nat × Session),
      broadcastWith (fun s => some (s.send enc now msg)) ss
        = (ss.map (sendToLive enc now msg), false) := by
  intro ss
  induction ss with
  | nil => rfl
  | cons p rest ih =>
    obtain ⟨k, s⟩ := p
    by_cases h : s.expired <;> simp [broadcastWith, sendToLive, h, ih]

/-- Claim C6 (amended): broadcast sends the encoded message to every session
whose expired flag is false and skips every expired one, but it is not
best-effort: a raising send path propagates out of the loop, so the
sessions after the failing one are left without the message. -/
theorem broadcast_amended (enc : List Nat → Frame) (now : Nat)
    (msg : Nat ⊕ List Nat) (m : SessionManager) :
    m.broadcast enc now msg
      = ({ m with sessions := m.sessions.map (sendToLive enc now msg) }, false) ∧
    (∀ (sendF : Session → Option Session) (k : Nat) (s : Session)
        (rest : List (Nat × Session)),
      s.expired = false → sendF s = none →
      broadcastWith sendF ((k, s) :: rest) = ((k, s) :: rest, true)) := by
  constructor
  · unfold SessionManager.broadcast
    rw [broadcastWith_send]
  · intro sendF k s rest h1 h2
    simp [broadcastWith, h1, h2]

/-- Claim C6, witness: the abort clause of the amended broadcast applied to
a single non-expired session whose send raises. -/
theorem broadcast_amended_witness :
    broadcastWith failingSend [(1, sessionA)] = ([(1, sessionA)], true) :=
  (broadcast_amended encId 0 (Sum.inl 7) managerEmpty).2 failingSend 1 sessionA [] rfl rfl

/-- Registry whose single session has its live expires exactly equal to the
collection pass's current time 10, with a matching pool entry. -/
def gcBoundaryManager : SessionManager :=
  { sessions := [(1, plainSession 1 10 10)], acquired := [],
    pool := [(10, 1)], timeout := 10 }

/-- Claim C3 (code bug): a _gc pass does not terminate when a pooled
session's live expires equals the current time.  The head entry is not in
the future (10 > 10 fails), so it is popped; the live deadline has not
strictly passed (10 < 10 fails), so an identical (10, session) entry is
re-pushed, and the loop repeats on the same state: for every iteration
budget the loop is still running. -/
theorem gc_boundary_nontermination (fuel : Nat) :
    gcLoop 10 fuel gcBoundaryManager = none := by
  induction fuel with
  | zero => rfl
  | succ k ih =>
    exact (show gcLoop 10 (k + 1) gcBoundaryManager
             = gcLoop 10 k gcBoundaryManager from rfl).trans ih

/-- Heap-shape check: every parent's stored expiry is at most each child's. -/
def isHeapB (l : List PoolEntry) : Bool :=
  (List.range l.length).all fun i =>
    (decide (l.length ≤ 2 * i + 1)
       || decide ((l.getD i (0, 0)).1 ≤ (l.getD (2 * i + 1) (0, 0)).1)) &&
    (decide (l.length ≤ 2 * i + 2)
       || decide ((l.getD i (0, 0)).1 ≤ (l.getD (2 * i + 2) (0, 0)).1))

/-- Registry whose pool is a valid binary min-heap with three live sessions,
all with live expires 100; the stored expiries are 1, 20 and 2. -/
def gcHeapManager : SessionManager :=
  { sessions := [(1, plainSession 1 10 100), (2, plainSession 2 10 100),
                 (3, plainSession 3 10 100)],
    acquired := [], pool := [(1, 1), (20, 2), (2, 3)], timeout := 10 }

/-- Claim C2 (code bug): starting from a valid heap, one _gc pass at time 10
pops the head with the plain list pop, which does not restore the heap
shape, re-pushes (100, 1), and then peeks (20, 2): since 20 is in the
future the loop stops, yet the entry (2, 3) is still in the pool with
stored expiry 2 at or before the current time 10 and its session still
registered, so the peeked head was not minimal and the early exit left a
due entry unexamined. -/
theorem gc_early_exit_unsound :
    isHeapB gcHeapManager.pool = true ∧
    gcLoop 10 5 gcHeapManager
      = some { gcHeapManager with pool := [(20, 2), (2, 3), (100, 1)] } ∧
    ¬(10 < 2) ∧ (mlookup gcHeapManager.sessions 3).isSome = true :=
  ⟨by decide, by decide, by decide, by decide⟩

/-- Claim C1: a terminating _gc pass never evicts a session whose live
expires is in the future — every such session is still bound to its id,
unmodified, afterward — and every session that disappeared from the
sessions dict had its live expires strictly before the pass's current
time.  The binding hypothesis states the dict invariant sessions[s.id] = s
that every reachable registry satisfies. -/
theorem gc_never_evicts_live (now : Nat) :
    ∀ (fuel : Nat) (m m' : SessionManager),
      (∀ p ∈ m.sessions, p.2.id = p.1) →
      gcLoop now fuel m = some m' →
      (∀ sid s, mlookup m.sessions sid = some s → now < s.expires →
          mlookup m'.sessions sid = some s) ∧
      (∀ sid s, mlookup m.sessions sid = some s → mlookup m'.sessions sid = none →
          s.expires < now) := by
  intro fuel
  induction fuel with
  | zero => intro m m' _ hgc; simp [gcLoop] at hgc
  | succ k ih =>
    intro m m' hbind hgc
    rcases hpool : m.pool with _ | ⟨⟨e, sid0⟩, rest⟩
    · simp only [gcLoop, hpool] at hgc
      obtain rfl := Option.some.inj hgc
      refine ⟨fun sid s hs _ => hs, fun sid s hs hn => ?_⟩
      rw [hs] at hn
      cases hn
    · simp only [gcLoop, hpool] at hgc
      rcases hl : mlookup m.sessions sid0 with _ | s0
      · simp only [hl] at hgc
        exact ih ⟨m.sessions, m.acquired, rest, m.timeout⟩ m' hbind hgc
      · simp only [hl] at hgc
        by_cases h1 : now < e
        · simp only [if_pos h1] at hgc
          obtain rfl := Option.some.inj hgc
          refine ⟨fun sid s hs _ => hs, fun sid s hs hn => ?_⟩
          rw [hs] at hn
          cases hn
        · simp only [if_neg h1] at hgc
          by_cases h2 : s0.expires < now
          · simp only [if_pos h2] at hgc
            have hid : s0.id = sid0 := hbind _ (mlookup_mem hl)
            obtain ⟨ih1, ih2⟩ :=
              ih _ m' (fun p hp => hbind p (mem_of_mem_eraseKey hp)) hgc
            constructor
            · intro sid s hs hlt
              have hne : sid ≠ sid0 := by
                intro hcc
                subst hcc
                rw [hl] at hs
                obtain rfl := Option.some.inj hs
                omega
              refine ih1 sid s ?_ hlt
              show mlookup (eraseKey m.sessions s0.id) sid = some s
              rw [hid, mlookup_eraseKey_ne _ hne]
              exact hs
            · intro sid s hs hn
              by_cases hcc : sid = sid0
              · subst hcc
                rw [hl] at hs
                obtain rfl := Option.some.inj hs
                exact h2
              · refine ih2 sid s ?_ hn
                show mlookup (eraseKey m.sessions s0.id) sid = some s
                rw [hid, mlookup_eraseKey_ne _ hcc]
                exact hs
          · simp only [if_neg h2] at hgc
            exact ih ⟨m.sessions, m.acquired, heappush rest (s0.expires, sid0),
                      m.timeout⟩ m' hbind hgc

/-- Registry with one live session (expires 100) behind a stale pool entry
recorded at expiry 5, collected at time 10. -/
def gcLiveManager : SessionManager :=
  { sessions := [(1, plainSession 1 10 100)], acquired := [],
    pool := [(5, 1)], timeout := 10 }

/-- State after one _gc pass over gcLiveManager: the session is retained and
its stale entry was replaced by a fresh (100, 1) entry. -/
def gcLiveResult : SessionManager :=
  { sessions := [(1, plainSession 1 10 100)], acquired := [],
    pool := [(100, 1)], timeout := 10 }

/-- Claim C1, witness: the pass over gcLiveManager at time 10 keeps the
refreshed session. -/
theorem gc_never_evicts_live_witness :
    (∀ sid s, mlookup gcLiveManager.sessions sid = some s → 10 < s.expires →
        mlookup gcLiveResult.sessions sid = some s) ∧
    (∀ sid s, mlookup gcLiveManager.sessions sid = some s →
        mlookup gcLiveResult.sessions sid = none → s.expires < 10) :=
  gc_never_evicts_live 10 3 gcLiveManager gcLiveResult (by decide) (by decide)

/-- Session state produced by the success path of acquire: ticked with the
default timeout and with hits incremented. -/
def acquiredSession (s : Session) (now : Nat) : Session :=
  { s.tick now none with hits := s.hits + 1 }

/-- Manager state produced by the success path of acquire on a present id:
the stored session replaced by its acquired state and its id marked. -/
def acquireResultM (m : SessionManager) (id : Nat) (s : Session) (now : Nat) :
    SessionManager :=
  { m with sessions := setKey m.sessions id (acquiredSession s now),
           acquired := insertId m.acquired (acquiredSession s now).id }

/-- Claim C8: every successful acquire returns a ticked session with hits
incremented and the id marked in acquired; and acquiring an id that is
already mapped to a session twice in a row hands back the stored session
both times — its hit counter accumulates to the original count plus two and
the key set of the sessions dict never changes, so no fresh session is
constructed. -/
theorem acquire_ticks_hits_idempotent :
    (∀ (m : SessionManager) (id now : Nat) (cr : Bool) (s' : Session)
        (m' : SessionManager),
      (∀ p ∈ m.sessions, p.2.id = p.1) →
      m.acquire id cr now = (.ok s', m') →
      s'.expired = false ∧ s'.expires = now + s'.timeout ∧ id ∈ m'.acquired ∧
      s'.hits = (match mlookup m.sessions id with
                 | some t => t.hits + 1
                 | none => 1)) ∧
    (∀ (m : SessionManager) (id now now' : Nat) (cr cr' : Bool) (s : Session),
      (∀ p ∈ m.sessions, p.2.id = p.1) →
      mlookup m.sessions id = some s →
      ∃ s1 m1 s2 m2,
        m.acquire id cr now = (.ok s1, m1) ∧
        s1 = { s.tick now none with hits := s.hits + 1 } ∧
        m1.sessions.map Prod.fst = m.sessions.map Prod.fst ∧
        m1.acquire id cr' now' = (.ok s2, m2) ∧
        s2 = { s1.tick now' none with hits := s1.hits + 1 } ∧
        s2.hits = s.hits + 2 ∧
        m2.sessions.map Prod.fst = m.sessions.map Prod.fst) := by
  constructor
  · intro m id now cr s' m' hbind hacq
    unfold SessionManager.acquire at hacq
    rcases hl : mlookup m.sessions id with _ | t
    · rw [hl] at hacq
      cases cr
      · simp at hacq
      · simp only [if_pos] at hacq
        simp only [SessionManager.add, Session.init] at hacq
        simp only [Bool.false_eq_true, if_false] at hacq
        obtain ⟨ha, hb⟩ := Prod.mk.injEq .. ▸ hacq
        obtain rfl := (Except.ok.injEq ..).mp ha
        obtain rfl := hb
        refine ⟨rfl, rfl, ?_, rfl⟩
        exact mem_insertId _ _
    · rw [hl] at hacq
      obtain ⟨ha, hb⟩ := Prod.mk.injEq .. ▸ hacq
      obtain rfl := (Except.ok.injEq ..).mp ha
      obtain rfl := hb
      have hid : t.id = id := hbind _ (mlookup_mem hl)
      refine ⟨rfl, rfl, ?_, rfl⟩
      show id ∈ insertId m.acquired t.id
      rw [hid]
      exact mem_insertId _ _
  · intro m id now now' cr cr' s hbind hs
    have hsome : (mlookup m.sessions id).isSome := by rw [hs]; rfl
    have hA : m.acquire id cr now
        = (.ok (acquiredSession s now), acquireResultM m id s now) := by
      unfold SessionManager.acquire acquireResultM acquiredSession
      rw [hs]
    have hs2 : mlookup (acquireResultM m id s now).sessions id
        = some (acquiredSession s now) := mlookup_setKey_self _ _ _
    have hsome2 : (mlookup (acquireResultM m id s now).sessions id).isSome := by
      rw [hs2]; rfl
    have hD : (acquireResultM m id s now).acquire id cr' now'
        = (.ok (acquiredSession (acquiredSession s now) now'),
           acquireResultM (acquireResultM m id s now) id (acquiredSession s now) now') := by
      unfold SessionManager.acquire
      rw [hs2]
      rfl
    have hC : (acquireResultM m id s now).sessions.map Prod.fst
        = m.sessions.map Prod.fst := keys_setKey _ hsome
    refine ⟨acquiredSession s now, acquireResultM m id s now,
            acquiredSession (acquiredSession s now) now',
            acquireResultM (acquireResultM m id s now) id (acquiredSession s now) now',
            hA, rfl, hC, hD, rfl, rfl, ?_⟩
    exact (keys_setKey _ hsome2).trans hC

/-- Manager holding one live session with id 1, used as the acquire witness
input. -/
def managerC8 : SessionManager :=
  { sessions := [(1, plainSession 1 10 20)], acquired := [],
    pool := [(20, 1)], timeout := 10 }

/-- Claim C8, witness: both parts applied to managerC8 at id 1. -/
theorem acquire_ticks_hits_idempotent_witness :
    ((acquiredSession (plainSession 1 10 20) 5).expired = false ∧
     (acquiredSession (plainSession 1 10 20) 5).expires
        = 5 + (acquiredSession (plainSession 1 10 20) 5).timeout ∧
     1 ∈ (acquireResultM managerC8 1 (plainSession 1 10 20) 5).acquired ∧
     (acquiredSession (plainSession 1 10 20) 5).hits
        = (match mlookup managerC8.sessions 1 with
           | some t => t.hits + 1
           | none => 1)) ∧
    (∃ s1 m1 s2 m2,
      managerC8.acquire 1 true 5 = (.ok s1, m1) ∧
      s1 = { (plainSession 1 10 20).tick 5 none with
             hits := (plainSession 1 10 20).hits + 1 } ∧
      m1.sessions.map Prod.fst = managerC8.sessions.map Prod.fst ∧
      m1.acquire 1 false 6 = (.ok s2, m2) ∧
      s2 = { s1.tick 6 none with hits := s1.hits + 1 } ∧
      s2.hits = (plainSession 1 10 20).hits + 2 ∧
      m2.sessions.map Prod.fst = managerC8.sessions.map Prod.fst) :=
  ⟨acquire_ticks_hits_idempotent.1 managerC8 1 5 true
      (acquiredSession (plainSession 1 10 20) 5)
      (acquireResultM managerC8 1 (plainSession 1 10 20) 5) (by decide) (by rfl),
   acquire_ticks_hits_idempotent.2 managerC8 1 5 6 true false
      (plainSession 1 10 20) (by decide) (by decide)⟩

/-! Multiset bookkeeping for the heap routines, leading to the fact that
heappop removes exactly one occurrence of the entry it returns. -/

theorem msAddSingleton {α : Type} (s : Multiset α) (y : α) : s + {y} = y ::ₘ s := by
  rw [add_comm, Multiset.singleton_add]

theorem coe_set_add {α : Type} (l : List α) (n : Nat) (a d : α) (h : n < l.length) :
    ((l.set n a : List α) : Multiset α) + {l.getD n d} = (l : Multiset α) + {a} := by
  induction l generalizing n with
  | nil => simp at h
  | cons x xs ih =>
    cases n with
    | zero =>
      show (↑(a :: xs) : Multiset α) + {x} = ↑(x :: xs) + {a}
      rw [← Multiset.cons_coe, ← Multiset.cons_coe, msAddSingleton, msAddSingleton,
          Multiset.cons_swap]
    | succ k =>
      have h' : k < xs.length := by simpa using h
      show (↑(x :: xs.set k a) : Multiset α) + {xs.getD k d} = ↑(x :: xs) + {a}
      have ih' := ih k h'
      rw [msAddSingleton, msAddSingleton] at ih'
      rw [← Multiset.cons_coe, ← Multiset.cons_coe, msAddSingleton, msAddSingleton,
          Multiset.cons_swap, Multiset.cons_swap a x]
      exact ((Multiset.cons_inj_right x).mpr ih')

theorem siftdownAux_coe (fuel : Nat) :
    ∀ (heap : List PoolEntry) (startpos pos : Nat) (newitem : PoolEntry),
      pos < heap.length →
      ((siftdownAux fuel heap startpos pos newitem : List PoolEntry) : Multiset PoolEntry)
        = ↑(heap.set pos newitem) := by
  induction fuel with
  | zero => intro heap sp pos ni h; rfl
  | succ k ih =>
    intro heap sp pos ni h
    simp only [siftdownAux]
    by_cases h1 : sp < pos
    · rw [if_pos h1]
      by_cases h2 : entryLt ni (heap.getD ((pos - 1) / 2) (0, 0)) = true
      · rw [if_pos h2]
        have hpp : (pos - 1) / 2 < pos := by
          have := Nat.div_le_self (pos - 1) 2
          omega
        have hlen : (pos - 1) / 2 < (heap.set pos (heap.getD ((pos - 1) / 2) (0, 0))).length := by
          simp only [List.length_set]
          omega
        rw [ih _ _ _ _ hlen]
        have hgd : (heap.set pos (heap.getD ((pos - 1) / 2) (0, 0))).getD ((pos - 1) / 2) (0, 0)
            = heap.getD ((pos - 1) / 2) (0, 0) := by
          have hne : pos ≠ (pos - 1) / 2 := by omega
          simp [List.getD_eq_getElem?_getD, List.getElem?_set_ne hne]
        have e1 := coe_set_add (heap.set pos (heap.getD ((pos - 1) / 2) (0, 0)))
          ((pos - 1) / 2) ni (0, 0) (by simp only [List.length_set]; omega)
        rw [hgd] at e1
        have e2 := coe_set_add heap pos (heap.getD ((pos - 1) / 2) (0, 0)) (0, 0) h
        have e3 := coe_set_add heap pos ni (0, 0) h
        refine Multiset.ext.mpr fun a => ?_
        have c1 := congrArg (Multiset.count a) e1
        have c2 := congrArg (Multiset.count a) e2
        have c3 := congrArg (Multiset.count a) e3
        simp only [Multiset.count_add] at c1 c2 c3
        omega
      · rw [if_neg h2]
    · rw [if_neg h1]

theorem pickChild_gt (heap : List PoolEntry) (pos : Nat) : pos < pickChild heap pos := by
  unfold pickChild
  split <;> omega

theorem pickChild_lt_length (heap : List PoolEntry) (pos : Nat)
    (h : 2 * pos + 1 < heap.length) : pickChild heap pos < heap.length := by
  unfold pickChild
  by_cases hc : (2 * pos + 2 < heap.length &&
      !(entryLt (heap.getD (2 * pos + 1) (0, 0)) (heap.getD (2 * pos + 2) (0, 0)))) = true
  · rw [if_pos hc]
    have := (Bool.and_eq_true _ _).mp hc
    exact of_decide_eq_true this.1
  · rw [if_neg hc]
    exact h

theorem siftupAux_coe (fuel : Nat) :
    ∀ (heap : List PoolEntry) (pos : Nat) (newitem : PoolEntry),
      pos < heap.length →
      ((siftupAux fuel heap pos newitem : List PoolEntry) : Multiset PoolEntry)
        = ↑(heap.set pos newitem) := by
  induction fuel with
  | zero =>
    intro heap pos ni h
    show ((siftdownAux pos ((heap.set pos ni)) 0 pos ni : List PoolEntry) : Multiset PoolEntry)
        = ↑(heap.set pos ni)
    rw [siftdownAux_coe pos _ 0 pos ni (by simpa using h), List.set_set]
  | succ k ih =>
    intro heap pos ni h
    simp only [siftupAux]
    by_cases h1 : 2 * pos + 1 < heap.length
    · rw [if_pos h1]
      have hc1 : pickChild heap pos < heap.length := pickChild_lt_length heap pos h1
      have hc2 : pos < pickChild heap pos := pickChild_gt heap pos
      have hlen : pickChild heap pos
          < (heap.set pos (heap.getD (pickChild heap pos) (0, 0))).length := by
        simp only [List.length_set]
        omega
      rw [ih _ _ _ hlen]
      have hgd : (heap.set pos (heap.getD (pickChild heap pos) (0, 0))).getD
            (pickChild heap pos) (0, 0)
          = heap.getD (pickChild heap pos) (0, 0) := by
        have hne : pos ≠ pickChild heap pos := by omega
        simp [List.getD_eq_getElem?_getD, List.getElem?_set_ne hne]
      have e1 := coe_set_add (heap.set pos (heap.getD (pickChild heap pos) (0, 0)))
        (pickChild heap pos) ni (0, 0) (by simp only [List.length_set]; omega)
      rw [hgd] at e1
      have e2 := coe_set_add heap pos (heap.getD (pickChild heap pos) (0, 0)) (0, 0) h
      have e3 := coe_set_add heap pos ni (0, 0) h
      refine Multiset.ext.mpr fun a => ?_
      have c1 := congrArg (Multiset.count a) e1
      have c2 := congrArg (Multiset.count a) e2
      have c3 := congrArg (Multiset.count a) e3
      simp only [Multiset.count_add] at c1 c2 c3
      omega
    · rw [if_neg h1]
      rw [siftdownAux_coe pos _ 0 pos ni (by simpa using h), List.set_set]

theorem heappop_coe {heap : List PoolEntry} {x : PoolEntry} {rest : List PoolEntry}
    (h : heappop heap = some (x, rest)) :
    x ::ₘ (↑rest : Multiset PoolEntry) = ↑heap := by
  unfold heappop at h
  rcases hgl : heap.getLast? with _ | lastelt
  · rw [hgl] at h
    cases h
  · rw [hgl] at h
    dsimp only at h
    have hne : heap ≠ [] := by
      intro hc
      subst hc
      simp at hgl

    have hlast : lastelt = heap.getLast hne := by
      rw [List.getLast?_eq_getLast heap hne] at hgl
      exact (Option.some.inj hgl).symm
    have hsplit : heap.dropLast ++ [lastelt] = heap := by
      rw [hlast]
      exact List.dropLast_append_getLast hne
    by_cases hre : heap.dropLast.isEmpty = true
    · rw [if_pos hre] at h
      have hdnil : heap.dropLast = [] := List.isEmpty_iff.mp hre
      obtain ⟨h1, h2⟩ := Prod.mk.injEq .. ▸ Option.some.inj h
      subst h1
      subst h2
      rw [← hsplit, hdnil]
      simp
    · rw [if_neg hre] at h
      obtain ⟨h1, h2⟩ := Prod.mk.injEq .. ▸ Option.some.inj h
      subst h1
      subst h2
      have hlen0 : 0 < heap.dropLast.length := by
        rcases hd : heap.dropLast with _ | ⟨y, ys⟩
        · rw [hd] at hre
          simp at hre
        · simp
      have hsau := siftupAux_coe heap.dropLast.length (heap.dropLast.set 0 lastelt) 0
        lastelt (by simpa using hlen0)
      rw [List.set_set] at hsau
      have e := coe_set_add heap.dropLast 0 lastelt (0, 0) hlen0
      rw [← msAddSingleton] at *
      calc (↑(siftupAux heap.dropLast.length (heap.dropLast.set 0 lastelt) 0 lastelt)
              : Multiset PoolEntry) + {heap.dropLast.getD 0 (0, 0)}
          = ↑(heap.dropLast.set 0 lastelt) + {heap.dropLast.getD 0 (0, 0)} := by rw [hsau]
        _ = ↑heap.dropLast + {lastelt} := e
        _ = ↑heap.dropLast + ↑[lastelt] := by rw [Multiset.coe_singleton]
        _ = ↑(heap.dropLast ++ [lastelt]) := by exact_mod_cast rfl
        _ = ↑heap := by rw [hsplit]

theorem heappop_length {heap : List PoolEntry} {x : PoolEntry} {rest : List PoolEntry}
    (h : heappop heap = some (x, rest)) : rest.length + 1 = heap.length := by
  have hc := congrArg Multiset.card (heappop_coe h)
  simpa [Multiset.card_cons, Multiset.coe_card] using hc

theorem heappop_isSome (heap : List PoolEntry) (hne : heap ≠ []) :
    (heappop heap).isSome := by
  unfold heappop
  rw [List.getLast?_eq_getLast heap hne]
  by_cases hre : heap.dropLast.isEmpty = true <;> simp [hre]

theorem eraseKey_of_not_mem_keys {l : List (Nat × Session)} {k : Nat}
    (h : k ∉ l.map Prod.fst) : eraseKey l k = l := by
  induction l with
  | nil => rfl
  | cons p rest ih =>
    have h1 : p.1 ≠ k := by
      intro hc
      exact h (by rw [List.map_cons, hc]; exact List.mem_cons_self _ _)
    have h2 : k ∉ rest.map Prod.fst := fun hc =>
      h (by rw [List.map_cons]; exact List.mem_cons_of_mem _ hc)
    simp [eraseKey, h1, ih h2]

theorem keys_eraseKey_cons {l : List (Nat × Session)} {k : Nat}
    (hnd : (l.map Prod.fst).Nodup) (h : k ∈ l.map Prod.fst) :
    k ::ₘ (↑((eraseKey l k).map Prod.fst) : Multiset Nat) = ↑(l.map Prod.fst) := by
  induction l with
  | nil => simp at h
  | cons p rest ih =>
    rw [List.map_cons] at hnd
    obtain ⟨hp1, hrest⟩ := List.nodup_cons.mp hnd
    by_cases hk : p.1 = k
    · subst hk
      have he1 : eraseKey (p :: rest) p.1 = eraseKey rest p.1 := by simp [eraseKey]
      rw [he1, eraseKey_of_not_mem_keys hp1, List.map_cons, ← Multiset.cons_coe]
    · have hkr : k ∈ rest.map Prod.fst := by
        rw [List.map_cons, List.mem_cons] at h
        rcases h with h | h
        · exact absurd h.symm hk
        · exact h
      have he1 : eraseKey (p :: rest) k = p :: eraseKey rest k := by simp [eraseKey, hk]
      rw [he1, List.map_cons, List.map_cons, ← Multiset.cons_coe, ← Multiset.cons_coe,
          Multiset.cons_swap]
      exact (Multiset.cons_inj_right p.1).mpr (ih hrest hkr)

theorem keys_eraseKey_nodup {l : List (Nat × Session)} (k : Nat)
    (hnd : (l.map Prod.fst).Nodup) : ((eraseKey l k).map Prod.fst).Nodup := by
  induction l with
  | nil => simp [eraseKey]
  | cons p rest ih =>
    rw [List.map_cons] at hnd
    obtain ⟨hp1, hrest⟩ := List.nodup_cons.mp hnd
    by_cases hk : p.1 = k
    · simp only [eraseKey, if_pos hk]
      exact ih hrest
    · simp only [eraseKey, if_neg hk, List.map_cons]
      refine List.nodup_cons.mpr ⟨?_, ih hrest⟩
      intro hc
      rcases List.mem_map.1 hc with ⟨q, hq, hq2⟩
      exact hp1 (List.mem_map.2 ⟨q, mem_of_mem_eraseKey hq, hq2⟩)

theorem clearAux_spec :
    ∀ (fuel : Nat) (pool : List PoolEntry) (sessions : List (Nat × Session)),
      pool.length ≤ fuel →
      (sessions.map Prod.fst).Nodup →
      (↑(pool.map Prod.snd) : Multiset Nat) = ↑(sessions.map Prod.fst) →
      ∃ ex, clearAux fuel pool sessions = some ([], ex) ∧
        ∀ p ∈ sessions, Session.expire p.2 ∈ ex := by
  have hemptycase : ∀ (fuel : Nat) (sessions : List (Nat × Session)),
      (↑([] : List Nat) : Multiset Nat) = ↑(sessions.map Prod.fst) →
      ∃ ex, clearAux fuel [] sessions = some ([], ex) ∧
        ∀ p ∈ sessions, Session.expire p.2 ∈ ex := by
    intro fuel sessions hms
    have hkeys : sessions.map Prod.fst = [] := by
      have h0 : (0 : Multiset Nat) = ↑(sessions.map Prod.fst) := hms
      exact (Multiset.coe_eq_zero _).mp h0.symm
    have hsess : sessions = [] := by
      cases sessions with
      | nil => rfl
      | cons q qs => simp at hkeys
    subst hsess
    exact ⟨[], by simp [clearAux], by simp⟩
  intro fuel
  induction fuel with
  | zero =>
    intro pool sessions hlen hnd hms
    have hpool : pool = [] := by
      cases pool with
      | nil => rfl
      | cons a b => simp at hlen
    subst hpool
    exact hemptycase 0 sessions (by simpa using hms)
  | succ k ih =>
    intro pool sessions hlen hnd hms
    cases pool with
    | nil => exact hemptycase (k + 1) sessions (by simpa using hms)
    | cons p rest =>
      have hne : (p :: rest) ≠ ([] : List PoolEntry) := by simp
      have hsome := heappop_isSome (p :: rest) hne
      rcases hp : heappop (p :: rest) with _ | ⟨⟨e, sid⟩, pool'⟩
      · rw [hp] at hsome
        simp at hsome
      · have hcoe := heappop_coe hp
        have hmap := congrArg (Multiset.map Prod.snd) hcoe
        rw [Multiset.map_cons, Multiset.map_coe, Multiset.map_coe] at hmap
        have hmap2 : sid ::ₘ (↑(pool'.map Prod.snd) : Multiset Nat)
            = ↑(sessions.map Prod.fst) := hmap.trans hms
        have hmemk : sid ∈ sessions.map Prod.fst := by
          have hm : sid ∈ (↑(sessions.map Prod.fst) : Multiset Nat) := by
            rw [← hmap2]
            exact Multiset.mem_cons_self _ _
          exact Multiset.mem_coe.mp hm
        obtain ⟨s, hlook⟩ := mlookup_isSome_of_mem_keys hmemk
        have hker := keys_eraseKey_cons hnd hmemk
        have hms' : (↑(pool'.map Prod.snd) : Multiset Nat)
            = ↑((eraseKey sessions sid).map Prod.fst) :=
          (Multiset.cons_inj_right sid).mp (hmap2.trans hker.symm)
        have hlen' : pool'.length ≤ k := by
          have hl := heappop_length hp
          simp only [List.length_cons] at hl hlen
          omega
        obtain ⟨ex', hca, hmem⟩ := ih pool' (eraseKey sessions sid) hlen'
          (keys_eraseKey_nodup sid hnd) hms'
        refine ⟨Session.expire s :: ex', ?_, ?_⟩
        · show clearAux (k + 1) (p :: rest) sessions = some ([], Session.expire s :: ex')
          simp only [clearAux]
          rw [hp]
          dsimp only
          rw [hlook]
          dsimp only
          rw [hca]
        · intro q hq
          by_cases hqs : q.1 = sid
          · have hlq : mlookup sessions q.1 = some q.2 :=
              mlookup_eq_of_mem_nodup hnd (by rw [Prod.mk.eta]; exact hq)
            rw [hqs, hlook] at hlq
            obtain rfl := Option.some.inj hlq
            exact List.mem_cons_self _ _
          · exact List.mem_cons_of_mem _ (hmem q (mem_eraseKey_of_ne hq hqs))

/-- Claim C10: on a well-formed registry (no duplicate ids and the pool
holding exactly one entry per registered session, the invariant every
state built through the manager API satisfies), clear() returns with the
sessions dict and the pool both drained, and every previously registered
session is reported back with its expired flag set and connected
cleared. -/
theorem clear_drains_registry (m : SessionManager)
    (hnd : (m.sessions.map Prod.fst).Nodup)
    (hms : (↑(m.pool.map Prod.snd) : Multiset Nat) = ↑(m.sessions.map Prod.fst)) :
    ∃ ex, m.clear = some ({ m with sessions := [], pool := [] }, ex) ∧
      ∀ p ∈ m.sessions, Session.expire p.2 ∈ ex := by
  obtain ⟨ex, hca, hmem⟩ := clearAux_spec m.pool.length m.pool m.sessions le_rfl hnd hms
  refine ⟨ex, ?_, hmem⟩
  unfold SessionManager.clear
  rw [hca]

/-- Two-session registry with matching pool entries, used as the clear
witness input. -/
def managerC10 : SessionManager :=
  { sessions := [(1, plainSession 1 10 3), (2, plainSession 2 10 4)], acquired := [7],
    pool := [(3, 1), (4, 2)], timeout := 10 }

/-- Claim C10, witness: clear on the two-session registry. -/
theorem clear_drains_registry_witness :
    ∃ ex, managerC10.clear = some ({ managerC10 with sessions := [], pool := [] }, ex) ∧
      ∀ p ∈ managerC10.sessions, Session.expire p.2 ∈ ex :=
  clear_drains_registry managerC10 (by decide) (by decide)

end PyramidSockjs
